import Mathlib

/-!
Verification of the audio sync-point analysis pipeline of
`apps/web/src/lib/audio-analysis.ts` (pottery-beat-sync).

The TypeScript source is shallowly embedded over exact rationals (ℚ):
JavaScript numbers become ℚ, arrays become `List`, and the stateful
accumulation loops of the detector passes become explicit recursion with
the mutable state threaded through.  The external Essentia collaborator
is modelled by passing its responses (beat ticks, onset frames, spectral
band energies, frame energies) as explicit inputs, so each analysis
entry point is a total function of (signal features, preset,
collaborator responses).
-/

namespace PotterySync

/-- Sync point type tags (`SyncPointType` union, audio-analysis.ts line 6). -/
inductive SyncPointType where
  | drop | bass | snare | hit | build | transition | vocal
  | pause | resume | chorus | verse
  deriving DecidableEq

/-- One sync point: `{ time, type, intensity }` (the source comment on the
`intensity` field documents the intended range 0-1). -/
structure SyncPoint where
  time : ℚ
  type : SyncPointType
  intensity : ℚ
  deriving DecidableEq

/-- Result record `AudioAnalysis { syncPoints, duration, bpm, averageEnergy }`. -/
structure AudioAnalysis where
  syncPoints : List SyncPoint
  duration : ℚ
  bpm : Option ℤ
  averageEnergy : ℚ
  deriving DecidableEq

/-- Preset record `AnalysisPreset` (densities per second, thresholds, dedup
windows in milliseconds, max gap in seconds). -/
structure AnalysisPreset where
  densityMin : ℚ
  densityMax : ℚ
  energyThreshold : ℚ
  onsetDedup : ℚ
  energyDedup : ℚ
  maxGap : ℚ
  deriving DecidableEq

/-- The `chill` preset from `ANALYSIS_PRESETS`. -/
def chillPreset : AnalysisPreset :=
  { densityMin := 4/5, densityMax := 3/2, energyThreshold := 3/4,
    onsetDedup := 80, energyDedup := 300, maxGap := 3 }

/-- The `standard` preset from `ANALYSIS_PRESETS`. -/
def standardPreset : AnalysisPreset :=
  { densityMin := 3/2, densityMax := 5/2, energyThreshold := 7/10,
    onsetDedup := 50, energyDedup := 200, maxGap := 2 }

/-- The `beat-heavy` preset from `ANALYSIS_PRESETS`. -/
def beatHeavyPreset : AnalysisPreset :=
  { densityMin := 5/2, densityMax := 4, energyThreshold := 1/2,
    onsetDedup := 30, energyDedup := 100, maxGap := 1 }

/-- JavaScript `Math.max(...l)` for a nonempty list; the empty case (which
would be `-Infinity` in JS) is only reached under guards in the source, we
return 0 there. -/
def listMax : List ℚ → ℚ
  | [] => 0
  | h :: t => t.foldl max h

/-- Arithmetic mean `l.reduce((a,b) => a+b, 0) / l.length` (division by zero,
i.e. the JS `NaN` for an empty list, is ℚ-division-by-zero = 0 here). -/
def meanOf (l : List ℚ) : ℚ := l.sum / l.length

/-- Stable ascending sort by time, `points.sort((a, b) => a.time - b.time)`. -/
def sortByTime (l : List SyncPoint) : List SyncPoint :=
  l.mergeSort (fun a b => a.time ≤ b.time)

/-- Stable descending sort by intensity, `others.sort((a, b) => b.intensity - a.intensity)`. -/
def sortByIntensityDesc (l : List SyncPoint) : List SyncPoint :=
  l.mergeSort (fun a b => b.intensity ≤ a.intensity)

/-- In-place update of the first merged point within `minGap` of `q`
(the mutation of `existing` performed inside `filterSyncPoints`): the
matched point keeps its time, and takes `q`'s type and intensity when
`q.intensity > existing.intensity`. -/
def updateFirst (l : List SyncPoint) (minGap : ℚ) (q : SyncPoint) : List SyncPoint :=
  match l with
  | [] => []
  | p :: t =>
    if |p.time - q.time| < minGap then
      (if q.intensity > p.intensity then
        { p with type := q.type, intensity := q.intensity }
      else p) :: t
    else p :: updateFirst t minGap q

/-- One iteration of the merge loop of `filterSyncPoints`: `merged.find(...)`
followed by either the in-place update or `merged.push({...point})`. -/
def mergeStep (merged : List SyncPoint) (minGap : ℚ) (q : SyncPoint) : List SyncPoint :=
  if merged.any (fun p => |p.time - q.time| < minGap) then
    updateFirst merged minGap q
  else merged ++ [q]

/-- The merge pass of `filterSyncPoints` (lines 504-518): scan `points` in
order, merging each into the first accumulated point closer than `minGap`. -/
def mergePoints (points : List SyncPoint) (minGap : ℚ) : List SyncPoint :=
  points.foldl (fun acc q => mergeStep acc minGap q) []

/-- Target density count (lines 522-525):
`Math.min(Math.max(20, Math.floor(duration*densityMin)), Math.floor(duration*densityMax))`. -/
def targetCount (duration : ℚ) (preset : AnalysisPreset) : ℤ :=
  min (max 20 ⌊duration * preset.densityMin⌋) ⌊duration * preset.densityMax⌋

/-- Intensity threshold for must-keep points (line 529):
`preset.energyThreshold > 0.6 ? 0.85 : 0.75`. -/
def intensityThreshold (preset : AnalysisPreset) : ℚ :=
  if preset.energyThreshold > 3/5 then 17/20 else 3/4

/-- Must-keep predicate (line 531): `p.type === 'drop' || p.type === 'resume' || p.intensity > intensityThreshold`. -/
def mustKeepB (th : ℚ) (p : SyncPoint) : Bool :=
  p.type == SyncPointType.drop || p.type == SyncPointType.resume ||
    decide (p.intensity > th)

/-- Complementary predicate for the `others` pool (line 534). -/
def othersB (th : ℚ) (p : SyncPoint) : Bool :=
  p.type != SyncPointType.drop && p.type != SyncPointType.resume &&
    decide (p.intensity ≤ th)

/-- The merged candidate list produced inside `filterSyncPoints`. -/
def mergedPoints (points : List SyncPoint) (preset : AnalysisPreset) : List SyncPoint :=
  mergePoints points (preset.onsetDedup / 1000)

/-- The must-keep sublist of the merged candidates (lines 530-532). -/
def mustKeepOf (points : List SyncPoint) (preset : AnalysisPreset) : List SyncPoint :=
  (mergedPoints points preset).filter (mustKeepB (intensityThreshold preset))

/-- The selection step of `filterSyncPoints` (lines 533-541): must-keep points
plus the top `remaining` of the others pool sorted by descending intensity. -/
def selectedPoints (points : List SyncPoint) (duration : ℚ) (preset : AnalysisPreset) :
    List SyncPoint :=
  let mustKeep := mustKeepOf points preset
  let others := (mergedPoints points preset).filter (othersB (intensityThreshold preset))
  let remaining := max 0 (targetCount duration preset - mustKeep.length)
  mustKeep ++ (sortByIntensityDesc others).take remaining.toNat

/-- Number of synthetic fillers for a gap, `Math.ceil(gap / maxGap) - 1`
(lines 575, 593). -/
def fillerCount (gap maxGap : ℚ) : Nat := (⌈gap / maxGap⌉ - 1).toNat

/-- The filler insertion loop (lines 578-584 and 596-602): `n` points of type
`hit`, each at the previously pushed time plus `spacing`. -/
def pushFillers (lastTime spacing : ℚ) (n : Nat) (intensity : ℚ) : List SyncPoint :=
  match n with
  | 0 => []
  | Nat.succ m =>
    ⟨lastTime + spacing, SyncPointType.hit, intensity⟩ ::
      pushFillers (lastTime + spacing) spacing m intensity

/-- The main walk of `ensureDistribution` (lines 569-588): before each point
whose gap to the previously pushed point exceeds `maxGap`, insert
`fillerCount` evenly spaced fillers of intensity 0.4. -/
def distLoop (last : SyncPoint) (rest : List SyncPoint) (maxGap : ℚ) : List SyncPoint :=
  match rest with
  | [] => []
  | p :: t =>
    let gap := p.time - last.time
    (if gap > maxGap then
      pushFillers last.time (gap / ((fillerCount gap maxGap : ℚ) + 1))
        (fillerCount gap maxGap) (2/5)
    else []) ++ p :: distLoop p t maxGap

/-- Degenerate fallback loop of `ensureDistribution` (lines 560-563):
`for (let t = 0; t < duration; t += spacing) result.push({time: t, type: 'hit', intensity: 0.5})`.
The guard `0 < spacing` provides termination; the JS loop does not terminate
for a non-positive spacing, which no built-in preset produces. -/
def fillLoop (spacing duration t : ℚ) : List SyncPoint :=
  if h : 0 < spacing ∧ t < duration then
    ⟨t, SyncPointType.hit, 1/2⟩ :: fillLoop spacing duration (t + spacing)
  else []
termination_by (⌈(duration - t) / spacing⌉).toNat
decreasing_by
  obtain ⟨hs, ht⟩ := h
  have h1 : (duration - (t + spacing)) / spacing = (duration - t) / spacing - 1 := by
    field_simp
    ring
  rw [h1, Int.ceil_sub_one]
  have h2 : (0:ℚ) < (duration - t) / spacing := div_pos (by linarith) hs
  have h3 : (1:ℤ) ≤ ⌈(duration - t) / spacing⌉ := Int.ceil_pos.mpr h2
  omega

/-- Distribution guarantee `ensureDistribution` (lines 553-606): fewer than two
points triggers the uniform density-derived grid; otherwise fillers are
inserted between consecutive points and after the last point when the gap to
`duration` exceeds `maxGap`. -/
def ensureDistribution (points : List SyncPoint) (duration : ℚ)
    (preset : AnalysisPreset) : List SyncPoint :=
  let maxGap := preset.maxGap
  if points.length < 2 then
    fillLoop (1 / ((preset.densityMin + preset.densityMax) / 2)) duration 0
  else
    match points with
    | [] => []
    | p :: rest =>
      let mid := p :: distLoop p rest maxGap
      let lastT := (mid.getLastD p).time
      let endGap := duration - lastT
      if endGap > maxGap then
        mid ++ pushFillers lastT (endGap / ((fillerCount endGap maxGap : ℚ) + 1))
          (fillerCount endGap maxGap) (3/10)
      else mid

/-- Curation pipeline `filterSyncPoints` (lines 501-548): merge, density
selection with must-keep rules, re-sort by time, then `ensureDistribution`. -/
def filterSyncPoints (points : List SyncPoint) (duration : ℚ)
    (preset : AnalysisPreset) : List SyncPoint :=
  ensureDistribution (sortByTime (selectedPoints points duration preset)) duration preset

/-- Percentile threshold selection (lines 426-428 and 260-262):
`sortedEnergies[Math.floor(len * energyThreshold)] || sortedEnergies[len - 1]`.
The JS `||` falls through to the last element when the indexed value is 0
(falsy) or the index is out of range (undefined). -/
def pickThreshold (energies : List ℚ) (energyThreshold : ℚ) : ℚ :=
  let sorted := energies.mergeSort (fun a b => a ≤ b)
  let idx := (⌊(energies.length : ℚ) * energyThreshold⌋).toNat
  let v := sorted.getD idx 0
  if v = 0 then sorted.getD (energies.length - 1) 0 else v

/-- Peak detection loop of `analyzeBasic` (lines 438-462), recursing over the
frame index with the `lastPeakIndex` state threaded through.  Frame energies
are inputs (the source computes them as per-frame RMS of the raw samples,
which is outside the rational embedding). -/
def basicPeaksGo (energies : List ℚ) (threshold mean maxE : ℚ) (minDistance : ℤ)
    (sampleRate : ℚ) (i : Nat) (lastPeakIndex : ℤ) : List SyncPoint :=
  if h : i + 3 < energies.length then
    let e := energies.getD i 0
    let time := (i : ℚ) * 512 / sampleRate
    if e > threshold ∧ (i : ℤ) - lastPeakIndex ≥ minDistance ∧
        e ≥ energies.getD (i - 1) 0 ∧ e ≥ energies.getD (i - 2) 0 ∧
        e ≥ energies.getD (i - 3) 0 ∧ e ≥ energies.getD (i + 1) 0 ∧
        e ≥ energies.getD (i + 2) 0 ∧ e ≥ energies.getD (i + 3) 0 then
      let intensity := min 1 ((e - mean) / (maxE - mean))
      ⟨time,
        if intensity > 4/5 then SyncPointType.drop
        else if intensity > 1/2 then SyncPointType.bass
        else SyncPointType.hit,
        intensity⟩ ::
        basicPeaksGo energies threshold mean maxE minDistance sampleRate (i + 1) i
    else basicPeaksGo energies threshold mean maxE minDistance sampleRate (i + 1) lastPeakIndex
  else []
termination_by energies.length - i

/-- Pause/resume state machine of `analyzeBasic` (lines 465-484): on leaving a
silence run longer than 0.1 s, emit a `pause` point at its start and a
`resume` point at its end. -/
def basicPausesGo (rem : List ℚ) (i : Nat) (silenceThreshold sampleRate : ℚ)
    (inPause : Bool) (pauseStart : ℚ) : List SyncPoint :=
  match rem with
  | [] => []
  | e :: t =>
    let time := (i : ℚ) * 512 / sampleRate
    if e < silenceThreshold ∧ inPause = false then
      basicPausesGo t (i + 1) silenceThreshold sampleRate true time
    else if e ≥ silenceThreshold ∧ inPause = true then
      (if time - pauseStart > 1/10 then
        [⟨pauseStart, SyncPointType.pause, 3/5⟩, ⟨time, SyncPointType.resume, 9/10⟩]
      else []) ++ basicPausesGo t (i + 1) silenceThreshold sampleRate false pauseStart
    else basicPausesGo t (i + 1) silenceThreshold sampleRate inPause pauseStart

/-- Basic fallback analysis `analyzeBasic` (lines 399-496), modelled from the
frame-energy sequence onward (`energies[i]` = RMS of frame `i`, hop 512). -/
def analyzeBasicFromEnergies (energies : List ℚ) (duration sampleRate : ℚ)
    (preset : AnalysisPreset) : AudioAnalysis :=
  let threshold := pickThreshold energies preset.energyThreshold
  let maxEnergy := listMax energies
  let meanEnergy := meanOf energies
  let minDistance := ⌊preset.energyDedup / 1000 * sampleRate / 512⌋
  let peaks := basicPeaksGo energies threshold meanEnergy maxEnergy minDistance sampleRate 3 (-minDistance)
  let pauses := basicPausesGo energies 0 (meanEnergy * (3/20)) sampleRate false 0
  { syncPoints := filterSyncPoints (sortByTime (peaks ++ pauses)) duration preset
    duration := duration
    bpm := none
    averageEnergy := meanEnergy }

/-- Responses of the Essentia collaborator and pre-computed spectral data,
passed explicitly: `bpmRaw`/`ticks` from `RhythmExtractor2013`, `onsetFrames`
from `OnsetDetection`, the hop-512 frame and band energies of the spectral
pre-analysis (lines 121-156, equal lengths by construction there), and the
hop-1024 `energies` of the energy analysis (lines 238-257). -/
structure EssentiaFeatures where
  bpmRaw : ℚ
  ticks : List ℚ
  onsetFrames : List ℚ
  frameEnergies : List ℚ
  lowFreqEnergies : List ℚ
  highFreqEnergies : List ℚ
  energies : List ℚ
  deriving DecidableEq

/-- JavaScript `Math.max(...l) || 1` (lines 170-171): a zero maximum falls
through to 1 (the empty-list case is unreachable behind the index guard of
`getSpectralType`). -/
def maxOr1 (l : List ℚ) : ℚ :=
  let m := listMax l
  if m = 0 then 1 else m

/-- Spectral classification helper `getSpectralType` (lines 159-189). -/
def getSpectralType (F : EssentiaFeatures) (sampleRate time : ℚ) :
    SyncPointType × ℚ :=
  let frameIndex := ⌊time * sampleRate / 512⌋
  if frameIndex < 0 ∨ (F.lowFreqEnergies.length : ℤ) ≤ frameIndex then
    (SyncPointType.hit, 1/2)
  else
    let lowE := F.lowFreqEnergies.getD frameIndex.toNat 0
    let highE := F.highFreqEnergies.getD frameIndex.toNat 0
    let lowR := lowE / maxOr1 F.lowFreqEnergies
    let highR := highE / maxOr1 F.highFreqEnergies
    if lowR > 7/10 ∧ lowR > highR * (3/2) then
      (if lowR > 17/20 then SyncPointType.drop else SyncPointType.bass,
        min 1 (lowR + 1/5))
    else if highR > 3/5 ∧ highR > lowR * (6/5) then
      (SyncPointType.snare, min 1 (highR + 1/10))
    else if lowR > 1/2 ∧ highR > 2/5 then
      (SyncPointType.hit, min 1 ((lowR + highR) / 2 + 1/5))
    else (SyncPointType.hit, 1/2)

/-- Beat tracking pass (lines 192-207): each tick below `duration` becomes a
candidate classified by `getSpectralType`. -/
def beatPass (F : EssentiaFeatures) (sampleRate duration : ℚ) : List SyncPoint :=
  F.ticks.filterMap (fun time =>
    if time < duration then
      let tv := getSpectralType F sampleRate time
      some ⟨time, tv.1, tv.2⟩
    else none)

/-- Onset pass (lines 215-231): onset frames are converted to seconds via hop
512 and appended unless an accumulated candidate lies within the onset dedup
window. -/
def onsetPass (F : EssentiaFeatures) (sampleRate duration onsetDedupSec : ℚ)
    (acc0 : List SyncPoint) : List SyncPoint :=
  F.onsetFrames.foldl (fun acc frame =>
    let time := frame * 512 / sampleRate
    if time < duration ∧ ¬ acc.any (fun p => |p.time - time| < onsetDedupSec) then
      let tv := getSpectralType F sampleRate time
      acc ++ [⟨time, tv.1, tv.2⟩]
    else acc) acc0

/-- Energy-peak pass of `analyzeWithEssentia` (lines 267-289): strict local
maxima of the hop-1024 energies above the percentile threshold, deduped
against all accumulated candidates. -/
def energyPeaksGo (F : EssentiaFeatures) (threshold mean maxE sampleRate energyDedupSec : ℚ)
    (i : Nat) (acc : List SyncPoint) : List SyncPoint :=
  if h : i + 2 < F.energies.length then
    let e := F.energies.getD i 0
    let time := (i : ℚ) * 1024 / sampleRate
    if e > threshold ∧ e > F.energies.getD (i - 1) 0 ∧ e > F.energies.getD (i - 2) 0 ∧
        e > F.energies.getD (i + 1) 0 ∧ e > F.energies.getD (i + 2) 0 ∧
        ¬ acc.any (fun p => |p.time - time| < energyDedupSec) then
      let intensity := min 1 ((e - mean) / (maxE - mean))
      energyPeaksGo F threshold mean maxE sampleRate energyDedupSec (i + 1)
        (acc ++ [⟨time,
          if intensity > 17/20 then SyncPointType.drop
          else (getSpectralType F sampleRate time).1,
          intensity⟩])
    else energyPeaksGo F threshold mean maxE sampleRate energyDedupSec (i + 1) acc
  else acc
termination_by F.energies.length - i

/-- Window-average collection of the segment pass (lines 297-302).  The JS
loop index advances by `segmentWindowSize / 2`, which is fractional for an
odd window size, so the index is a rational and `Array.slice` truncates it;
`fuel` bounds the iteration count (it is never exhausted when `sws ≥ 1`; for
`sws = 0` the JS loop would not terminate). -/
def windowAvgs (energies : List ℚ) (sws : Nat) (fuel : Nat) (i : ℚ) : List ℚ :=
  match fuel with
  | 0 => []
  | Nat.succ fuel =>
    if i < (energies.length : ℚ) - (sws : ℚ) then
      let windowEnd := min (i + (sws : ℚ)) ((energies.length : ℚ))
      let w := (energies.drop (⌊i⌋).toNat).take ((⌊windowEnd⌋).toNat - (⌊i⌋).toNat)
      meanOf w :: windowAvgs energies sws fuel (i + (sws : ℚ) / 2)
    else []

/-- Emission loop of the segment pass (lines 307-323): a point is emitted at
each verse/chorus label change after time 0, deduped within 1 s. -/
def segGo (rem : List ℚ) (i : Nat) (sws : Nat) (sampleRate median : ℚ)
    (prev : Option SyncPointType) (acc : List SyncPoint) : List SyncPoint :=
  match rem with
  | [] => acc
  | w :: t =>
    let time := (i : ℚ) * (sws : ℚ) / 2 * 1024 / sampleRate
    let ty := if w > median * (11/10) then SyncPointType.chorus else SyncPointType.verse
    let acc2 :=
      if some ty ≠ prev ∧ time > 0 then
        if ¬ acc.any (fun p => |p.time - time| < 1) then
          acc ++ [⟨time, ty, if ty = SyncPointType.chorus then 17/20 else 3/5⟩]
        else acc
      else acc
    segGo t (i + 1) sws sampleRate median (some ty) acc2

/-- Segment (verse/chorus) pass (lines 291-324). -/
def segmentPass (F : EssentiaFeatures) (sampleRate : ℚ) (acc : List SyncPoint) :
    List SyncPoint :=
  let sws := (⌊4 * sampleRate / 1024⌋).toNat
  if F.energies.length > sws * 2 then
    let wE := windowAvgs F.energies sws (2 * F.energies.length + 2) 0
    let median := (wE.mergeSort (fun a b => a ≤ b)).getD (wE.length / 2) 0
    segGo wE 0 sws sampleRate median none acc
  else acc

/-- Pause/resume pass of `analyzeWithEssentia` (lines 326-360): silence runs
longer than 0.15 s emit `pause` and `resume` points, each deduped within
0.1 s of accumulated candidates. -/
def essPausesGo (rem : List ℚ) (i : Nat) (silenceThreshold sampleRate : ℚ)
    (inPause : Bool) (pauseStart : ℚ) (acc : List SyncPoint) : List SyncPoint :=
  match rem with
  | [] => acc
  | e :: t =>
    let time := (i : ℚ) * 1024 / sampleRate
    if e < silenceThreshold ∧ inPause = false then
      essPausesGo t (i + 1) silenceThreshold sampleRate true time acc
    else if e ≥ silenceThreshold ∧ inPause = true then
      if time - pauseStart > 3/20 then
        let acc1 :=
          if ¬ acc.any (fun p => |p.time - pauseStart| < 1/10) then
            acc ++ [⟨pauseStart, SyncPointType.pause, 3/5⟩]
          else acc
        let acc2 :=
          if ¬ acc1.any (fun p => |p.time - time| < 1/10) then
            acc1 ++ [⟨time, SyncPointType.resume, 9/10⟩]
          else acc1
        essPausesGo t (i + 1) silenceThreshold sampleRate false pauseStart acc2
      else essPausesGo t (i + 1) silenceThreshold sampleRate false pauseStart acc
    else essPausesGo t (i + 1) silenceThreshold sampleRate inPause pauseStart acc

/-- Build pass (lines 362-379): a sustained mean-energy increase by a factor
above 1.6 over adjacent 0.5 s windows emits a `build` point, deduped within
0.5 s. -/
def buildsGo (energies : List ℚ) (bws : Nat) (sampleRate : ℚ) (i : Nat)
    (acc : List SyncPoint) : List SyncPoint :=
  if h : i + bws < energies.length then
    let before := ((energies.drop (i - bws)).take bws).sum / (bws : ℚ)
    let after := ((energies.drop i).take bws).sum / (bws : ℚ)
    let r := after / (before + 1/1000)
    let time := (i : ℚ) * 1024 / sampleRate
    if r > 8/5 ∧ ¬ acc.any (fun p => |p.time - time| < 1/2) then
      buildsGo energies bws sampleRate (i + 1)
        (acc ++ [⟨time, SyncPointType.build, min 1 ((r - 1) / (3/2))⟩])
    else buildsGo energies bws sampleRate (i + 1) acc
  else acc
termination_by energies.length - i

/-- Essentia-backed analysis `analyzeWithEssentia` (lines 109-394), modelled
as a function of the collaborator responses: six detector passes append to a
shared accumulator, which is sorted by time and curated; the returned record
sets `averageEnergy` to the literal 0 (line 392) and the rounded BPM. -/
def analyzeEssentiaFromFeatures (F : EssentiaFeatures) (sampleRate duration : ℚ)
    (preset : AnalysisPreset) : AudioAnalysis :=
  let acc1 := beatPass F sampleRate duration
  let acc2 := onsetPass F sampleRate duration (preset.onsetDedup / 1000) acc1
  let threshold := pickThreshold F.energies preset.energyThreshold
  let maxE := listMax F.energies
  let mean := meanOf F.energies
  let acc3 := energyPeaksGo F threshold mean maxE sampleRate (preset.energyDedup / 1000) 2 acc2
  let acc4 := segmentPass F sampleRate acc3
  let acc5 := essPausesGo F.energies 0 (mean * (1/10)) sampleRate false 0 acc4
  let bws := (⌊(1/2 : ℚ) * sampleRate / 1024⌋).toNat
  let acc6 := buildsGo F.energies bws sampleRate bws acc5
  { syncPoints := filterSyncPoints (sortByTime acc6) duration preset
    duration := duration
    bpm := some ⌊F.bpmRaw + 1/2⌋
    averageEnergy := 0 }

/-! ### Helper lemmas about the merge pass -/

theorem updateFirst_map_time (l : List SyncPoint) (g : ℚ) (q : SyncPoint) :
    (updateFirst l g q).map SyncPoint.time = l.map SyncPoint.time := by
  induction l with
  | nil => rfl
  | cons p t ih =>
    simp only [updateFirst]
    split
    · simp only [List.map_cons]
      congr 1
      split <;> rfl
    · simp only [List.map_cons, ih]

theorem mergeStep_pairwise {g : ℚ} {acc : List SyncPoint} (q : SyncPoint)
    (h : List.Pairwise (fun a b : SyncPoint => g ≤ |a.time - b.time|) acc) :
    List.Pairwise (fun a b : SyncPoint => g ≤ |a.time - b.time|) (mergeStep acc g q) := by
  unfold mergeStep
  split
  · have hmap : List.Pairwise (fun x y : ℚ => g ≤ |x - y|) (acc.map SyncPoint.time) :=
      List.pairwise_map.mpr h
    rw [← updateFirst_map_time acc g q] at hmap
    exact List.pairwise_map.mp hmap
  · rename_i hany
    rw [List.pairwise_append]
    refine ⟨h, List.pairwise_singleton _ _, ?_⟩
    intro a ha b hb
    rw [List.mem_singleton] at hb
    subst hb
    have hnot : ¬ |a.time - b.time| < g := by
      intro hlt
      exact hany (List.any_eq_true.mpr ⟨a, ha, decide_eq_true hlt⟩)
    exact le_of_not_lt hnot

theorem foldl_mergeStep_pairwise (g : ℚ) (pts : List SyncPoint) (acc : List SyncPoint)
    (h : List.Pairwise (fun a b : SyncPoint => g ≤ |a.time - b.time|) acc) :
    List.Pairwise (fun a b : SyncPoint => g ≤ |a.time - b.time|)
      (pts.foldl (fun a q => mergeStep a g q) acc) := by
  induction pts generalizing acc with
  | nil => exact h
  | cons q t ih => exact ih _ (mergeStep_pairwise q h)

theorem mergePoints_pairwise (pts : List SyncPoint) (g : ℚ) :
    List.Pairwise (fun a b : SyncPoint => g ≤ |a.time - b.time|) (mergePoints pts g) :=
  foldl_mergeStep_pairwise g pts [] List.Pairwise.nil

/-! ### Claim theorems: merge pass, target count, error handling,
determinism, average energy -/

/-- C5: merged points produced by the dedup pass of `filterSyncPoints` are
pairwise at least `preset.onsetDedup` milliseconds apart, and the concrete
scenario — candidates at `t=1.000` (`hit`, 0.4) and `t=1.030` (`bass`, 0.7)
under the standard preset (`onsetDedup = 50 ms`) — merges to a single point
at `t=1.000` with type `bass` and intensity 0.7; an equal-intensity tie
keeps the earlier-seen candidate. -/
theorem merge_spacing_and_merge_scenario :
    (∀ (pts : List SyncPoint) (preset : AnalysisPreset),
      List.Pairwise (fun a b : SyncPoint =>
        preset.onsetDedup / 1000 ≤ |a.time - b.time|)
        (mergePoints pts (preset.onsetDedup / 1000))) ∧
    mergePoints [⟨1, SyncPointType.hit, 2/5⟩, ⟨103/100, SyncPointType.bass, 7/10⟩]
        (50/1000) = [⟨1, SyncPointType.bass, 7/10⟩] ∧
    mergePoints [⟨1, SyncPointType.hit, 2/5⟩, ⟨103/100, SyncPointType.bass, 2/5⟩]
        (50/1000) = [⟨1, SyncPointType.hit, 2/5⟩] :=
  ⟨fun pts _ => mergePoints_pairwise pts _, by with_unfolding_all decide,
    by with_unfolding_all decide⟩

/-- C6 counterexample: on a 5-second track with the standard preset the
target count is `floor(5 × 2.5) = 12`, which is below 20 — the claim's
"at least 20 points for very short/sparse tracks" fails. -/
theorem target_count_below_twenty :
    targetCount 5 standardPreset = 12 ∧ ¬ ((20:ℤ) ≤ targetCount 5 standardPreset) := by
  with_unfolding_all decide

/-- C6 (amended): the target count is
`min (max 20 ⌊duration·densityMin⌋) ⌊duration·densityMax⌋`; it is bounded
above by `⌊duration·densityMax⌋`, and is at least 20 exactly when that upper
bound admits it — not for arbitrarily short tracks. -/
theorem target_count_clamp (d : ℚ) (preset : AnalysisPreset) :
    targetCount d preset =
      min (max 20 ⌊d * preset.densityMin⌋) ⌊d * preset.densityMax⌋ ∧
    targetCount d preset ≤ ⌊d * preset.densityMax⌋ ∧
    ((20:ℤ) ≤ ⌊d * preset.densityMax⌋ → 20 ≤ targetCount d preset) :=
  ⟨rfl, min_le_right _ _, fun h => le_min (le_max_left _ _) h⟩

theorem target_count_clamp_witness :
    (20:ℤ) ≤ ⌊(100:ℚ) * standardPreset.densityMax⌋ ∧
      20 ≤ targetCount 100 standardPreset :=
  ⟨by with_unfolding_all decide,
    (target_count_clamp 100 standardPreset).2.2 (by with_unfolding_all decide)⟩

set_option maxRecDepth 40000 in
set_option maxHeartbeats 1000000 in
/-- C8 counterexample: with an invalid preset (`densityMax = 1 <
densityMin = 2` and `maxGap = -1`) the analysis is not rejected: it runs the
full pipeline and returns an ordinary result (here the degenerate uniform
grid), contradicting "reject at call entry with a descriptive error". -/
theorem invalid_preset_not_rejected :
    analyzeBasicFromEnergies [1, 1, 1, 1] 1 512
        ⟨2, 1, 7/10, 50, 200, -1⟩ =
      ⟨[⟨0, SyncPointType.hit, 1/2⟩, ⟨2/3, SyncPointType.hit, 1/2⟩], 1, none, 1⟩ := by
  with_unfolding_all decide

/-- C8 (amended): no validation exists at entry — for every preset, valid or
not, the analysis runs to completion and returns a normal result carrying
the requested duration, the computed mean energy and a null BPM. -/
theorem analysis_never_rejects (energies : List ℚ) (duration sampleRate : ℚ)
    (preset : AnalysisPreset) :
    (analyzeBasicFromEnergies energies duration sampleRate preset).duration = duration ∧
    (analyzeBasicFromEnergies energies duration sampleRate preset).averageEnergy =
      meanOf energies ∧
    (analyzeBasicFromEnergies energies duration sampleRate preset).bpm = none :=
  ⟨rfl, rfl, rfl⟩

/-- C9: both analysis paths are deterministic — as functions of the signal
features, the preset and the collaborator responses (all threaded explicitly
through the embedding), equal inputs give identical results. -/
theorem analysis_deterministic (F F' : EssentiaFeatures) (sr sr' d d' : ℚ)
    (p p' : AnalysisPreset) (E E' : List ℚ) (db db' srb srb' : ℚ)
    (q q' : AnalysisPreset)
    (h1 : F = F') (h2 : sr = sr') (h3 : d = d') (h4 : p = p')
    (h5 : E = E') (h6 : db = db') (h7 : srb = srb') (h8 : q = q') :
    analyzeEssentiaFromFeatures F sr d p = analyzeEssentiaFromFeatures F' sr' d' p' ∧
    analyzeBasicFromEnergies E db srb q = analyzeBasicFromEnergies E' db' srb' q' := by
  subst h1 h2 h3 h4 h5 h6 h7 h8
  exact ⟨rfl, rfl⟩

theorem analysis_deterministic_witness :
    analyzeEssentiaFromFeatures ⟨120, [], [], [], [], [], []⟩ 44100 10 standardPreset =
      analyzeEssentiaFromFeatures ⟨120, [], [], [], [], [], []⟩ 44100 10 standardPreset ∧
    analyzeBasicFromEnergies [1] 1 512 standardPreset =
      analyzeBasicFromEnergies [1] 1 512 standardPreset :=
  analysis_deterministic _ _ _ _ _ _ _ _ _ _ _ _ _ _ _ _ rfl rfl rfl rfl rfl rfl rfl rfl

/-- C10: the Essentia path always returns `averageEnergy = 0` (the literal at
line 392), while only the basic fallback returns the computed mean frame
energy. -/
theorem average_energy_zero_on_essentia_path (F : EssentiaFeatures) (sr d : ℚ)
    (p : AnalysisPreset) (E : List ℚ) (db srb : ℚ) (q : AnalysisPreset) :
    (analyzeEssentiaFromFeatures F sr d p).averageEnergy = 0 ∧
    (analyzeBasicFromEnergies E db srb q).averageEnergy = meanOf E :=
  ⟨rfl, rfl⟩

set_option maxRecDepth 40000 in
set_option maxHeartbeats 1000000 in
/-- C2: a frame-energy sequence whose local peak clears the percentile
threshold but lies below the mean produces a sync point with negative
intensity in the returned analysis — the code computes
`Math.min(1, (energy - mean)/(max - mean))` with no lower clamp, violating
the documented `0 ≤ intensity ≤ 1` bound. -/
theorem negative_intensity_reaches_output :
    (⟨5, SyncPointType.hit, -157/1783⟩ : SyncPoint) ∈
      (analyzeBasicFromEnergies
        [2, 2, 2, 2, 2, 3, 2, 2, 2, 2, 2, 2, 80, 2, 2, 2, 2, 2, 2, 100]
        20 512 standardPreset).syncPoints ∧
    (-157/1783 : ℚ) < 0 := by
  constructor
  · with_unfolding_all decide
  · norm_num

set_option maxRecDepth 40000 in
/-- C1 counterexample: with the chill preset (`maxGap = 3`) and detected
points at `t=5` and `t=6` on a 10-second track, the first output point is at
`t=5`, so the gap from the boundary `0` to the first point is 5 s, exceeding
`maxGap` plus the 1e-6 tolerance — the code never fills the leading gap. -/
theorem start_gap_never_filled :
    ((ensureDistribution [⟨5, SyncPointType.hit, 1/2⟩, ⟨6, SyncPointType.hit, 1/2⟩]
        10 chillPreset).head?.map SyncPoint.time) = some 5 ∧
    chillPreset.maxGap + 1/1000000 < 5 := by
  with_unfolding_all decide

set_option maxRecDepth 40000 in
set_option maxHeartbeats 1000000 in
/-- C3 counterexample: a single merged `drop` candidate (the must-keep case)
is lost — with fewer than two selected points `ensureDistribution` replaces
the selection by the uniform grid, so no `drop` point survives to the final
output. -/
theorem mustkeep_lost_in_degenerate_fallback :
    (filterSyncPoints [⟨5, SyncPointType.drop, 9/10⟩] 10 standardPreset).all
      (fun p => p.type != SyncPointType.drop) = true := by
  with_unfolding_all decide

/-! ### Structure lemmas for the gap-fill walk -/

theorem fillerCount_one_le {gap maxG : ℚ} (hm : 0 < maxG) (hg : maxG < gap) :
    1 ≤ fillerCount gap maxG := by
  unfold fillerCount
  have h1 : ((1:ℤ) : ℚ) < gap / maxG := by
    push_cast
    exact (one_lt_div hm).mpr hg
  have h2 : (1:ℤ) < ⌈gap / maxG⌉ := Int.lt_ceil.mpr h1
  omega

theorem fillerCount_cast_add_one {gap maxG : ℚ} (hm : 0 < maxG) (hg : maxG < gap) :
    ((fillerCount gap maxG : ℚ) + 1) = ((⌈gap / maxG⌉ : ℤ) : ℚ) := by
  have h1 : ((1:ℤ) : ℚ) < gap / maxG := by
    push_cast
    exact (one_lt_div hm).mpr hg
  have h2 : (1:ℤ) < ⌈gap / maxG⌉ := Int.lt_ceil.mpr h1
  unfold fillerCount
  have h3 : ((⌈gap / maxG⌉ - 1).toNat : ℤ) = ⌈gap / maxG⌉ - 1 :=
    Int.toNat_of_nonneg (by omega)
  have h4 : ((⌈gap / maxG⌉ - 1).toNat : ℚ) = ((⌈gap / maxG⌉ : ℤ) : ℚ) - 1 := by
    exact_mod_cast congrArg (fun z : ℤ => (z : ℚ)) h3
  rw [h4]
  ring

theorem spacing_le_maxGap {gap maxG : ℚ} (hm : 0 < maxG) (hg : maxG < gap) :
    gap / ((fillerCount gap maxG : ℚ) + 1) ≤ maxG := by
  rw [fillerCount_cast_add_one hm hg]
  have hc : (0:ℚ) < ((⌈gap / maxG⌉ : ℤ) : ℚ) := by
    have h1 : ((1:ℤ) : ℚ) < gap / maxG := by
      push_cast
      exact (one_lt_div hm).mpr hg
    have h2 : (1:ℤ) < ⌈gap / maxG⌉ := Int.lt_ceil.mpr h1
    exact_mod_cast by omega
  rw [div_le_iff₀ hc]
  have hle : gap / maxG ≤ ((⌈gap / maxG⌉ : ℤ) : ℚ) := Int.le_ceil _
  calc gap = gap / maxG * maxG := by field_simp
    _ ≤ ((⌈gap / maxG⌉ : ℤ) : ℚ) * maxG := by
        exact mul_le_mul_of_nonneg_right hle (le_of_lt hm)
    _ = maxG * ((⌈gap / maxG⌉ : ℤ) : ℚ) := by ring

theorem spacing_pos {gap maxG : ℚ} (hm : 0 < maxG) (hg : maxG < gap) :
    0 < gap / ((fillerCount gap maxG : ℚ) + 1) :=
  div_pos (lt_trans hm hg) (by positivity)

theorem spacing_total (gap maxG : ℚ) :
    ((fillerCount gap maxG : ℚ) + 1) * (gap / ((fillerCount gap maxG : ℚ) + 1)) = gap := by
  have hnq : ((fillerCount gap maxG : ℚ) + 1) ≠ 0 := by positivity
  field_simp

theorem chain'_fillers_cons {s : ℚ} (Rt : ℚ → ℚ → Prop)
    (hstep : ∀ x : ℚ, Rt x (x + s)) :
    ∀ (n : Nat) (t iv : ℚ) (a p : SyncPoint) (L : List SyncPoint),
      a.time = t → p.time = t + ((n : ℚ) + 1) * s →
      List.Chain' (fun u v : SyncPoint => Rt u.time v.time) (p :: L) →
      List.Chain' (fun u v : SyncPoint => Rt u.time v.time)
        (a :: (pushFillers t s n iv ++ p :: L)) := by
  intro n
  induction n with
  | zero =>
    intro t iv a p L ha hp hL
    simp only [pushFillers, List.nil_append]
    rw [List.chain'_cons]
    refine ⟨?_, hL⟩
    rw [ha, hp]
    have he : t + (((0:ℕ) : ℚ) + 1) * s = t + s := by push_cast; ring
    rw [he]
    exact hstep t
  | succ m ih =>
    intro t iv a p L ha hp hL
    simp only [pushFillers, List.cons_append]
    rw [List.chain'_cons]
    constructor
    · show Rt a.time (t + s)
      rw [ha]
      exact hstep t
    · exact ih (t + s) iv ⟨t + s, SyncPointType.hit, iv⟩ p L rfl
        (by rw [hp]; push_cast; ring) hL

theorem chain'_fillers_nil {s : ℚ} (Rt : ℚ → ℚ → Prop)
    (hstep : ∀ x : ℚ, Rt x (x + s)) :
    ∀ (n : Nat) (t iv : ℚ) (a : SyncPoint), a.time = t →
      List.Chain' (fun u v : SyncPoint => Rt u.time v.time)
        (a :: pushFillers t s n iv) := by
  intro n
  induction n with
  | zero =>
    intro t iv a _
    simp [pushFillers]
  | succ m ih =>
    intro t iv a ha
    simp only [pushFillers]
    rw [List.chain'_cons]
    constructor
    · show Rt a.time (t + s)
      rw [ha]
      exact hstep t
    · exact ih (t + s) iv ⟨t + s, SyncPointType.hit, iv⟩ rfl

theorem pushFillers_getLast_succ (s iv : ℚ) :
    ∀ (n : Nat) (t : ℚ),
      (pushFillers t s (n + 1) iv).getLast? =
        some ⟨t + ((n : ℚ) + 1) * s, SyncPointType.hit, iv⟩ := by
  intro n
  induction n with
  | zero =>
    intro t
    show ([⟨t + s, SyncPointType.hit, iv⟩] : List SyncPoint).getLast? = _
    rw [List.getLast?_singleton]
    congr 2
    push_cast
    ring
  | succ m ih =>
    intro t
    show (⟨t + s, SyncPointType.hit, iv⟩ :: pushFillers (t + s) s (m + 1) iv).getLast? = _
    have hne : pushFillers (t + s) s (m + 1) iv =
        ⟨t + s + s, SyncPointType.hit, iv⟩ :: pushFillers (t + s + s) s m iv := rfl
    rw [hne, List.getLast?_cons_cons, ← hne, ih (t + s)]
    congr 2
    push_cast
    ring

theorem pushFillers_head_succ (s iv : ℚ) (n : Nat) (t : ℚ) :
    (pushFillers t s (n + 1) iv).head? = some ⟨t + s, SyncPointType.hit, iv⟩ := rfl

/-! ### Lemmas about `distLoop` -/

theorem distLoop_getLast (maxG : ℚ) :
    ∀ (rest : List SyncPoint) (last : SyncPoint),
      (last :: distLoop last rest maxG).getLast? = (last :: rest).getLast? := by
  intro rest
  induction rest with
  | nil => intro last; rfl
  | cons p t ih =>
    intro last
    have hsh : last :: distLoop last (p :: t) maxG =
        (last :: (if p.time - last.time > maxG then
          pushFillers last.time
            ((p.time - last.time) / ((fillerCount (p.time - last.time) maxG : ℚ) + 1))
            (fillerCount (p.time - last.time) maxG) (2/5)
        else [])) ++ (p :: distLoop p t maxG) := by
      simp only [distLoop, List.cons_append]
    rw [hsh, List.getLast?_append, ih p, List.getLast?_cons_cons]
    have hne : (p :: t).getLast? ≠ none := by
      simp
    cases hoz : (p :: t).getLast? with
    | none => exact absurd hoz hne
    | some z => rfl

theorem distLoop_mem (maxG : ℚ) :
    ∀ (rest : List SyncPoint) (last x : SyncPoint),
      x ∈ rest → x ∈ distLoop last rest maxG := by
  intro rest
  induction rest with
  | nil => intro last x hx; cases hx
  | cons p t ih =>
    intro last x hx
    simp only [distLoop]
    rcases List.mem_cons.mp hx with h | h
    · exact List.mem_append_right _ (h ▸ List.mem_cons_self _ _)
    · exact List.mem_append_right _ (List.mem_cons_of_mem _ (ih p x h))

theorem distLoop_length (maxG : ℚ) :
    ∀ (rest : List SyncPoint) (last : SyncPoint),
      rest.length ≤ (distLoop last rest maxG).length := by
  intro rest
  induction rest with
  | nil => intro last; simp [distLoop]
  | cons p t ih =>
    intro last
    simp only [distLoop, List.length_append, List.length_cons]
    have := ih p
    omega

theorem distLoop_chain_le {maxG : ℚ} (hm : 0 < maxG) :
    ∀ (rest : List SyncPoint) (last : SyncPoint),
      List.Chain' (fun u v : SyncPoint => v.time - u.time ≤ maxG)
        (last :: distLoop last rest maxG) := by
  intro rest
  induction rest with
  | nil => intro last; simp [distLoop]
  | cons p t ih =>
    intro last
    simp only [distLoop]
    by_cases hgap : p.time - last.time > maxG
    · rw [if_pos hgap]
      apply chain'_fillers_cons (fun u v => v - u ≤ maxG)
        (fun x => by
          have := spacing_le_maxGap hm hgap
          linarith)
        (fillerCount (p.time - last.time) maxG) last.time (2/5) last p
        (distLoop p t maxG) rfl ?_ (ih p)
      have := spacing_total (p.time - last.time) maxG
      linarith
    · rw [if_neg hgap, List.nil_append, List.chain'_cons]
      exact ⟨by linarith [not_lt.mp hgap], ih p⟩

theorem distLoop_chain_lt {maxG : ℚ} (hm : 0 < maxG) :
    ∀ (rest : List SyncPoint) (last : SyncPoint),
      List.Chain' (fun u v : SyncPoint => u.time < v.time) (last :: rest) →
      List.Chain' (fun u v : SyncPoint => u.time < v.time)
        (last :: distLoop last rest maxG) := by
  intro rest
  induction rest with
  | nil => intro last _; simp [distLoop]
  | cons p t ih =>
    intro last hin
    obtain ⟨hlp, htail⟩ := List.chain'_cons.mp hin
    simp only [distLoop]
    by_cases hgap : p.time - last.time > maxG
    · rw [if_pos hgap]
      apply chain'_fillers_cons (fun u v : ℚ => u < v)
        (fun x => by
          have := spacing_pos hm hgap
          linarith)
        (fillerCount (p.time - last.time) maxG) last.time (2/5) last p
        (distLoop p t maxG) rfl ?_ (ih p htail)
      have := spacing_total (p.time - last.time) maxG
      linarith
    · rw [if_neg hgap, List.nil_append, List.chain'_cons]
      exact ⟨hlp, ih p htail⟩

/-! ### Lemmas about `ensureDistribution` and the degenerate fallback -/

theorem ensureDistribution_short (pts : List SyncPoint) (d : ℚ) (preset : AnalysisPreset)
    (h : pts.length < 2) :
    ensureDistribution pts d preset =
      fillLoop (1 / ((preset.densityMin + preset.densityMax) / 2)) d 0 := by
  unfold ensureDistribution
  rw [if_pos h]

theorem ensureDistribution_cons_cons (p q : SyncPoint) (rest : List SyncPoint)
    (d : ℚ) (preset : AnalysisPreset) :
    ensureDistribution (p :: q :: rest) d preset =
      (if d - (((p :: distLoop p (q :: rest) preset.maxGap).getLastD p).time) >
          preset.maxGap then
        (p :: distLoop p (q :: rest) preset.maxGap) ++
          pushFillers (((p :: distLoop p (q :: rest) preset.maxGap).getLastD p).time)
            ((d - ((p :: distLoop p (q :: rest) preset.maxGap).getLastD p).time) /
              ((fillerCount
                  (d - ((p :: distLoop p (q :: rest) preset.maxGap).getLastD p).time)
                  preset.maxGap : ℚ) + 1))
            (fillerCount
              (d - ((p :: distLoop p (q :: rest) preset.maxGap).getLastD p).time)
              preset.maxGap)
            (3/10)
      else (p :: distLoop p (q :: rest) preset.maxGap)) := rfl

theorem mid_getLast_time (p q : SyncPoint) (rest : List SyncPoint) (maxG : ℚ) :
    ∃ z : SyncPoint, (p :: distLoop p (q :: rest) maxG).getLast? = some z ∧
      ((p :: distLoop p (q :: rest) maxG).getLastD p).time = z.time := by
  have h1 := distLoop_getLast maxG (q :: rest) p
  have h2 : ∃ z, (p :: q :: rest).getLast? = some z := by
    rw [List.getLast?_cons_cons]
    exact ⟨(q :: rest).getLast (List.cons_ne_nil _ _), List.getLast?_eq_getLast _ _⟩
  obtain ⟨z, hz⟩ := h2
  refine ⟨z, h1.trans hz, ?_⟩
  rw [List.getLastD_eq_getLast?, h1, hz]
  rfl

theorem ensureDistribution_mem {pts : List SyncPoint} {d : ℚ} {preset : AnalysisPreset}
    (hlen : 2 ≤ pts.length) {x : SyncPoint} (hx : x ∈ pts) :
    x ∈ ensureDistribution pts d preset := by
  match pts, hlen with
  | p :: q :: rest, _ =>
    rw [ensureDistribution_cons_cons]
    have hmid : x ∈ p :: distLoop p (q :: rest) preset.maxGap := by
      rcases List.mem_cons.mp hx with h | h
      · exact h ▸ List.mem_cons_self _ _
      · exact List.mem_cons_of_mem _ (distLoop_mem _ _ _ _ h)
    split
    · exact List.mem_append_left _ hmid
    · exact hmid

theorem ensureDistribution_length {pts : List SyncPoint} {d : ℚ} {preset : AnalysisPreset}
    (hlen : 2 ≤ pts.length) :
    pts.length ≤ (ensureDistribution pts d preset).length := by
  match pts, hlen with
  | p :: q :: rest, _ =>
    rw [ensureDistribution_cons_cons]
    have hbase : (p :: q :: rest).length ≤
        (p :: distLoop p (q :: rest) preset.maxGap).length := by
      simp only [List.length_cons]
      have := distLoop_length preset.maxGap (q :: rest) p
      simp only [List.length_cons] at this
      omega
    split
    · rw [List.length_append]
      omega
    · exact hbase

/-- C1 (amended): for a curated set of at least two points and a positive
`maxGap`, every gap between consecutive output points is at most
`preset.maxGap` (exactly, in exact arithmetic), and so is the gap from the
last output point to `duration`; the gap from `0` to the first point is
never filled (see the counterexample), and a single detected point takes the
uniform fallback instead of being bridged. -/
theorem gaps_bounded_after_first_point {pts : List SyncPoint} {d : ℚ}
    {preset : AnalysisPreset} (hm : 0 < preset.maxGap) (hlen : 2 ≤ pts.length) :
    List.Chain' (fun u v : SyncPoint => v.time - u.time ≤ preset.maxGap)
      (ensureDistribution pts d preset) ∧
    d - ((ensureDistribution pts d preset).getLastD ⟨0, SyncPointType.hit, 0⟩).time ≤
      preset.maxGap := by
  match pts, hlen with
  | p :: q :: rest, _ =>
    rw [ensureDistribution_cons_cons]
    obtain ⟨z, hz, hzt⟩ := mid_getLast_time p q rest preset.maxGap
    have hchainmid := distLoop_chain_le hm (q :: rest) p
    by_cases hc : d - (((p :: distLoop p (q :: rest) preset.maxGap).getLastD p).time) >
        preset.maxGap
    · rw [if_pos hc]
      set L := p :: distLoop p (q :: rest) preset.maxGap with hL
      set T := ((L.getLastD p).time) with hT
      set G := d - T with hG
      set n := fillerCount G preset.maxGap with hn
      set s := G / ((n : ℚ) + 1) with hs
      have hG' : preset.maxGap < G := hc
      have hsle : s ≤ preset.maxGap := spacing_le_maxGap hm hG'
      have hstot : ((n : ℚ) + 1) * s = G := spacing_total G preset.maxGap
      obtain ⟨m, hm'⟩ : ∃ m, n = m + 1 := by
        have := fillerCount_one_le hm hG'
        exact ⟨n - 1, by omega⟩
      constructor
      · rw [List.chain'_append]
        refine ⟨hchainmid, ?_, ?_⟩
        · have := @chain'_fillers_nil s
            (fun u v : ℚ => v - u ≤ preset.maxGap)
            (fun x => by linarith) n T (3/10) ⟨T, SyncPointType.hit, 0⟩ rfl
          exact this.tail
        · intro a ha b hb
          rw [hz] at ha
          rw [Option.mem_def, Option.some.injEq] at ha
          subst ha
          rw [hm', pushFillers_head_succ, Option.mem_def, Option.some.injEq] at hb
          subst hb
          show (T + s) - z.time ≤ preset.maxGap
          rw [← hzt]
          linarith
      · rw [List.getLastD_eq_getLast?, List.getLast?_append, hm',
          pushFillers_getLast_succ]
        show d - (T + ((m : ℚ) + 1) * s) ≤ preset.maxGap
        have hcast : ((n : ℚ)) = (m : ℚ) + 1 := by
          rw [hm']
          push_cast
          ring
        have : ((m : ℚ) + 1) * s = G - s := by
          rw [← hcast]
          nlinarith [hstot]
        rw [this]
        have hdG : d = G + T := by rw [hG]; ring
        rw [hdG]
        linarith
    · rw [if_neg hc]
      refine ⟨hchainmid, ?_⟩
      rw [List.getLastD_eq_getLast?, hz]
      show d - z.time ≤ preset.maxGap
      rw [← hzt]
      linarith [not_lt.mp hc]

theorem fillLoop_head_cases (s d t : ℚ) :
    fillLoop s d t = [] ∨
      (fillLoop s d t).head? = some ⟨t, SyncPointType.hit, 1/2⟩ := by
  rw [fillLoop]
  split
  · right; rfl
  · left; rfl

theorem fillLoop_chain_lt (s d : ℚ) : ∀ t : ℚ,
    List.Chain' (fun u v : SyncPoint => u.time < v.time) (fillLoop s d t) := by
  intro t
  induction t using fillLoop.induct s d with
  | case1 x hx ih =>
    rw [fillLoop, dif_pos hx]
    rw [List.chain'_cons']
    refine ⟨?_, ih⟩
    intro y hy
    rcases fillLoop_head_cases s d (x + s) with hemp | hhead
    · rw [hemp] at hy
      cases hy
    · rw [hhead, Option.mem_def, Option.some.injEq] at hy
      subst hy
      show x < x + s
      linarith [hx.1]
  | case2 x hx =>
    rw [fillLoop, dif_neg hx]
    exact List.chain'_nil

theorem ensureDistribution_chain_lt {pts : List SyncPoint} {d : ℚ}
    {preset : AnalysisPreset} (hm : 0 < preset.maxGap)
    (hs : 0 < preset.densityMin + preset.densityMax)
    (hin : List.Chain' (fun u v : SyncPoint => u.time < v.time) pts) :
    List.Chain' (fun u v : SyncPoint => u.time < v.time)
      (ensureDistribution pts d preset) := by
  match pts with
  | [] => exact (ensureDistribution_short [] d preset (by simp)) ▸ fillLoop_chain_lt _ _ _
  | [p] => exact (ensureDistribution_short [p] d preset (by simp)) ▸ fillLoop_chain_lt _ _ _
  | p :: q :: rest =>
    rw [ensureDistribution_cons_cons]
    obtain ⟨z, hz, hzt⟩ := mid_getLast_time p q rest preset.maxGap
    have hchainmid := distLoop_chain_lt hm (q :: rest) p hin
    by_cases hc : d - (((p :: distLoop p (q :: rest) preset.maxGap).getLastD p).time) >
        preset.maxGap
    · rw [if_pos hc]
      set L := p :: distLoop p (q :: rest) preset.maxGap with hL
      set T := ((L.getLastD p).time) with hT
      set G := d - T with hG
      set n := fillerCount G preset.maxGap with hn
      set s := G / ((n : ℚ) + 1) with hs
      have hG' : preset.maxGap < G := hc
      have hspos : 0 < s := spacing_pos hm hG'
      obtain ⟨m, hm'⟩ : ∃ m, n = m + 1 := by
        have := fillerCount_one_le hm hG'
        exact ⟨n - 1, by omega⟩
      rw [List.chain'_append]
      refine ⟨hchainmid, ?_, ?_⟩
      · have := @chain'_fillers_nil s
          (fun u v : ℚ => u < v)
          (fun x => by linarith) n T (3/10) ⟨T, SyncPointType.hit, 0⟩ rfl
        exact this.tail
      · intro a ha b hb
        rw [hz, Option.mem_def, Option.some.injEq] at ha
        subst ha
        rw [hm', pushFillers_head_succ, Option.mem_def, Option.some.injEq] at hb
        subst hb
        show z.time < T + s
        rw [← hzt]
        linarith
    · rw [if_neg hc]
      exact hchainmid

theorem gaps_bounded_after_first_point_witness :
    (0:ℚ) < chillPreset.maxGap ∧
    2 ≤ ([⟨5, SyncPointType.hit, 1/2⟩, ⟨6, SyncPointType.hit, 1/2⟩] : List SyncPoint).length ∧
    (List.Chain' (fun u v : SyncPoint => v.time - u.time ≤ chillPreset.maxGap)
      (ensureDistribution [⟨5, SyncPointType.hit, 1/2⟩, ⟨6, SyncPointType.hit, 1/2⟩]
        10 chillPreset) ∧
     10 - ((ensureDistribution [⟨5, SyncPointType.hit, 1/2⟩, ⟨6, SyncPointType.hit, 1/2⟩]
        10 chillPreset).getLastD ⟨0, SyncPointType.hit, 0⟩).time ≤ chillPreset.maxGap) :=
  ⟨by with_unfolding_all decide, by decide,
    gaps_bounded_after_first_point (by with_unfolding_all decide) (by decide)⟩

/-- C3 (amended): every must-keep point of the merged candidate set appears
in the final output and must-keep points are never truncated for density
(the final count is at least the must-keep count, even above `targetCount`)
— provided the selected set has at least two points; a degenerate selected
set (fewer than two points) is replaced wholesale by the uniform grid,
which discards even must-keep points (see the counterexample). -/
theorem mustkeep_preserved (pts : List SyncPoint) (d : ℚ) (preset : AnalysisPreset)
    (hlen : 2 ≤ (selectedPoints pts d preset).length) :
    (∀ p ∈ mustKeepOf pts preset, p ∈ filterSyncPoints pts d preset) ∧
    (mustKeepOf pts preset).length ≤ (filterSyncPoints pts d preset).length := by
  have hperm : (sortByTime (selectedPoints pts d preset)).Perm
      (selectedPoints pts d preset) := List.mergeSort_perm _ _
  have hlen2 : 2 ≤ (sortByTime (selectedPoints pts d preset)).length := by
    rw [hperm.length_eq]
    exact hlen
  constructor
  · intro p hp
    show p ∈ ensureDistribution (sortByTime (selectedPoints pts d preset)) d preset
    apply ensureDistribution_mem hlen2
    rw [hperm.mem_iff]
    exact List.mem_append_left _ hp
  · have h1 : (mustKeepOf pts preset).length ≤ (selectedPoints pts d preset).length := by
      unfold selectedPoints
      simp only [List.length_append]
      omega
    have h2 := @ensureDistribution_length _ d preset hlen2
    rw [hperm.length_eq] at h2
    exact le_trans h1 h2

theorem mustkeep_preserved_witness :
    2 ≤ (selectedPoints [⟨1, SyncPointType.drop, 9/10⟩, ⟨5, SyncPointType.resume, 9/10⟩]
      6 standardPreset).length ∧
    ∀ p ∈ mustKeepOf [⟨1, SyncPointType.drop, 9/10⟩, ⟨5, SyncPointType.resume, 9/10⟩]
      standardPreset,
      p ∈ filterSyncPoints [⟨1, SyncPointType.drop, 9/10⟩, ⟨5, SyncPointType.resume, 9/10⟩]
        6 standardPreset :=
  ⟨by with_unfolding_all decide,
    (mustkeep_preserved _ _ _ (by with_unfolding_all decide)).1⟩

theorem fillLoop_eq_range (s d : ℚ) (hs : 0 < s) : ∀ t : ℚ,
    fillLoop s d t =
      (List.range ((⌈(d - t) / s⌉).toNat)).map
        (fun (k : ℕ) => (⟨t + (k : ℚ) * s, SyncPointType.hit, 1/2⟩ : SyncPoint)) := by
  intro t
  induction t using fillLoop.induct s d with
  | case1 x hx ih =>
    rw [fillLoop, dif_pos hx]
    have h1 : (d - (x + s)) / s = (d - x) / s - 1 := by
      field_simp
      ring
    have hceil : ⌈(d - (x + s)) / s⌉ = ⌈(d - x) / s⌉ - 1 := by
      rw [h1, Int.ceil_sub_one]
    have hpos : (1:ℤ) ≤ ⌈(d - x) / s⌉ :=
      Int.ceil_pos.mpr (div_pos (by linarith [hx.2]) hs)
    have hN : (⌈(d - x) / s⌉).toNat = (⌈(d - (x + s)) / s⌉).toNat + 1 := by
      rw [hceil]
      omega
    rw [ih, hN, List.range_succ_eq_map]
    simp only [List.map_cons, List.map_map]
    congr 1
    · congr 1
      push_cast
      ring
    · apply List.map_congr_left
      intro k _
      simp only [Function.comp_apply]
      congr 1
      push_cast
      ring
  | case2 x hx =>
    rw [fillLoop, dif_neg hx]
    have hxd : ¬ x < d := fun hlt => hx ⟨hs, hlt⟩
    have hnp : (d - x) / s ≤ 0 :=
      div_nonpos_of_nonpos_of_nonneg (by linarith [not_lt.mp hxd]) (le_of_lt hs)
    have hcl : ⌈(d - x) / s⌉ ≤ 0 := by
      apply Int.ceil_le.mpr
      push_cast
      exact hnp
    have h0 : (⌈(d - x) / s⌉).toNat = 0 := by omega
    rw [h0]
    rfl

/-- C7: with fewer than two curated points, `ensureDistribution` bypasses the
gap-fill and emits the uniform density-derived grid: `hit` points of
intensity 0.5 at times `k · 1/((densityMin+densityMax)/2)` for every `k`
with that time below `duration`, starting at time 0; under the standard
preset the spacing `1/((1.5+2.5)/2)` is exactly 0.5 s, so there are
`⌈duration/0.5⌉` of them. -/
theorem degenerate_uniform_grid (pts : List SyncPoint) (d : ℚ) (preset : AnalysisPreset)
    (hlen : pts.length < 2) (havg : 0 < preset.densityMin + preset.densityMax) :
    ensureDistribution pts d preset =
      (List.range ((⌈d * ((preset.densityMin + preset.densityMax) / 2)⌉).toNat)).map
        (fun (k : ℕ) => (⟨(k : ℚ) * (1 / ((preset.densityMin + preset.densityMax) / 2)),
          SyncPointType.hit, 1/2⟩ : SyncPoint)) ∧
    (1 : ℚ) / ((standardPreset.densityMin + standardPreset.densityMax) / 2) = 1/2 := by
  constructor
  · rw [ensureDistribution_short pts d preset hlen]
    have hsp : 0 < 1 / ((preset.densityMin + preset.densityMax) / 2) := by positivity
    rw [fillLoop_eq_range _ _ hsp 0]
    have harg : (d - 0) / (1 / ((preset.densityMin + preset.densityMax) / 2)) =
        d * ((preset.densityMin + preset.densityMax) / 2) := by
      field_simp
    rw [harg]
    apply List.map_congr_left
    intro k _
    congr 1
    ring
  · norm_num [standardPreset]

theorem degenerate_uniform_grid_witness :
    (([] : List SyncPoint).length < 2) ∧
    ensureDistribution [] 3 standardPreset =
      (List.range ((⌈(3:ℚ) *
          ((standardPreset.densityMin + standardPreset.densityMax) / 2)⌉).toNat)).map
        (fun (k : ℕ) => (⟨(k : ℚ) *
          (1 / ((standardPreset.densityMin + standardPreset.densityMax) / 2)),
          SyncPointType.hit, 1/2⟩ : SyncPoint)) :=
  ⟨by decide, (degenerate_uniform_grid [] 3 standardPreset (by decide)
    (by norm_num [standardPreset])).1⟩

/-! ### Strict ordering of the final output (C4) -/

theorem mustKeep_not_others (th : ℚ) (p : SyncPoint)
    (h1 : mustKeepB th p = true) (h2 : othersB th p = true) : False := by
  unfold mustKeepB at h1
  unfold othersB at h2
  rw [Bool.or_eq_true, Bool.or_eq_true] at h1
  rw [Bool.and_eq_true, Bool.and_eq_true] at h2
  obtain ⟨⟨hd, hr⟩, hle⟩ := h2
  rw [decide_eq_true_eq] at hle
  rw [bne_iff_ne] at hd hr
  rcases h1 with (h | h) | h
  · rw [beq_iff_eq] at h
    exact hd h
  · rw [beq_iff_eq] at h
    exact hr h
  · rw [decide_eq_true_eq] at h
    linarith

theorem selected_pairwise (pts : List SyncPoint) (d : ℚ) (preset : AnalysisPreset) :
    List.Pairwise (fun a b : SyncPoint =>
      preset.onsetDedup / 1000 ≤ |a.time - b.time|)
      (selectedPoints pts d preset) := by
  have hsymm : Symmetric (fun a b : SyncPoint =>
      preset.onsetDedup / 1000 ≤ |a.time - b.time|) := by
    intro a b h
    rwa [abs_sub_comm]
  have hmerged : List.Pairwise (fun a b : SyncPoint =>
      preset.onsetDedup / 1000 ≤ |a.time - b.time|) (mergedPoints pts preset) :=
    mergePoints_pairwise pts _
  have hforall := hmerged.forall hsymm
  have hmk : (mustKeepOf pts preset).Sublist (mergedPoints pts preset) := by
    unfold mustKeepOf
    exact List.filter_sublist _
  have hot : ((mergedPoints pts preset).filter
      (othersB (intensityThreshold preset))).Sublist (mergedPoints pts preset) :=
    List.filter_sublist _
  unfold selectedPoints
  simp only []
  rw [List.pairwise_append]
  refine ⟨List.Pairwise.sublist hmk hmerged, ?_, ?_⟩
  · exact List.Pairwise.sublist (List.take_sublist _ _)
      (((List.mergeSort_perm _ _).pairwise_iff
        (fun hxy => hsymm hxy)).mpr (List.Pairwise.sublist hot hmerged))
  · intro a ha b hb
    have ha' := List.mem_filter.mp (by
      have : a ∈ mustKeepOf pts preset := ha
      unfold mustKeepOf at this
      exact this)
    have hb1 : b ∈ sortByIntensityDesc ((mergedPoints pts preset).filter
        (othersB (intensityThreshold preset))) := List.take_subset _ _ hb
    have hb2 : b ∈ (mergedPoints pts preset).filter
        (othersB (intensityThreshold preset)) :=
      ((List.mergeSort_perm _ _).mem_iff).mp hb1
    have hb' := List.mem_filter.mp hb2
    have hne : a ≠ b := fun he =>
      mustKeep_not_others (intensityThreshold preset) a ha'.2 (he ▸ hb'.2)
    exact hforall ha'.1 hb'.1 hne

theorem sorted_selected_pairwise_lt (pts : List SyncPoint) (d : ℚ)
    (preset : AnalysisPreset) (hded : 0 < preset.onsetDedup) :
    List.Pairwise (fun a b : SyncPoint => a.time < b.time)
      (sortByTime (selectedPoints pts d preset)) := by
  have hsymm : ∀ {x y : SyncPoint},
      preset.onsetDedup / 1000 ≤ |x.time - y.time| →
      preset.onsetDedup / 1000 ≤ |y.time - x.time| := by
    intro x y h
    rwa [abs_sub_comm]
  have hpw : List.Pairwise (fun a b : SyncPoint =>
      preset.onsetDedup / 1000 ≤ |a.time - b.time|)
      (sortByTime (selectedPoints pts d preset)) :=
    ((List.mergeSort_perm _ _).pairwise_iff hsymm).mpr
      (selected_pairwise pts d preset)
  have hsorted : List.Pairwise (fun a b : SyncPoint => a.time ≤ b.time)
      (sortByTime (selectedPoints pts d preset)) := by
    have h := @List.sorted_mergeSort SyncPoint
      (fun a b : SyncPoint => decide (a.time ≤ b.time))
      (fun a b c hab hbc => by
        simp only [decide_eq_true_eq] at hab hbc ⊢
        exact le_trans hab hbc)
      (fun a b => by
        simp only [Bool.or_eq_true, decide_eq_true_eq]
        exact le_total _ _)
      (selectedPoints pts d preset)
    exact h.imp (fun hab => by simpa using hab)
  refine (hsorted.and hpw).imp ?_
  intro a b hab
  obtain ⟨hle, hg⟩ := hab
  rcases lt_or_eq_of_le hle with h | h
  · exact h
  · exfalso
    rw [h] at hg
    simp only [sub_self, abs_zero] at hg
    linarith

/-- C4: in every curated result the sync points are strictly ascending in
time: the merge pass spaces merged candidates at least `onsetDedup` ms
apart, selection only removes points, the time sort orders them, and both
the gap-fill walk and the degenerate uniform grid insert strictly
increasing times. -/
theorem sync_points_strictly_ascending (pts : List SyncPoint) (d : ℚ)
    (preset : AnalysisPreset) (h1 : 0 < preset.onsetDedup) (h2 : 0 < preset.maxGap)
    (h3 : 0 < preset.densityMin + preset.densityMax) :
    List.Chain' (fun u v : SyncPoint => u.time < v.time)
      (filterSyncPoints pts d preset) := by
  show List.Chain' _ (ensureDistribution (sortByTime (selectedPoints pts d preset)) d preset)
  exact ensureDistribution_chain_lt h2 h3
    (List.Pairwise.chain' (sorted_selected_pairwise_lt pts d preset h1))

theorem sync_points_strictly_ascending_witness :
    (0:ℚ) < standardPreset.onsetDedup ∧ (0:ℚ) < standardPreset.maxGap ∧
    (0:ℚ) < standardPreset.densityMin + standardPreset.densityMax ∧
    List.Chain' (fun u v : SyncPoint => u.time < v.time)
      (filterSyncPoints [⟨1, SyncPointType.hit, 3/5⟩, ⟨4, SyncPointType.bass, 7/10⟩]
        10 standardPreset) :=
  ⟨by with_unfolding_all decide, by with_unfolding_all decide,
    by with_unfolding_all decide,
    sync_points_strictly_ascending _ _ _ (by with_unfolding_all decide)
      (by with_unfolding_all decide) (by with_unfolding_all decide)⟩

end PotterySync
